import Mathlib

/-!
Verification of the LED-Tunnel animation engine (final snapshot of
`src/LEDTunnel.ino`).  The C++ source is shallowly embedded: every
sequence's mutable members become fields of a Lean structure, the global
`leds` array becomes an explicit `Buf` (a list of color values) threaded
through each operation, and every store into `leds` is additionally
recorded as an explicit write event so that properties about write
indices and written values can be stated directly.

Machine integers (`int` in the source) are modelled as `Int`; the 8-bit
color channels are stored as `Int` with the range invariant `0..255`
proved where claimed.  The HSV→RGB conversion performed by the FastLED
driver when a `CHSV` value is assigned to a `CRGB` slot is out of scope
(the spec treats color-space conversion as an external collaborator), so
the buffer stores the channel triple as written.  Arduino's `random` is
modelled by passing the raw entropy value explicitly and reducing it
exactly as `random(min, max)` does (`min + x % (max - min)`).
-/

set_option maxRecDepth 100000

namespace LEDTunnel

/-! ## Configuration constants (CONFIG sections of the source) -/

def NUM_STRIPS : Nat := 8

def NUM_STRIP_LEDS : Nat := 150

def SEQUENCE_DURATION : Int := 300

def WRAPUP_WARNING_OFFSET : Int := 20

def NUM_SEQUENCES : Int := 3

/-- Color value: the three 8-bit channels of a FastLED `CHSV`, as stored. -/
structure CHSVc where
  h : Int
  s : Int
  v : Int
deriving DecidableEq, Repr

def S_RING_CHASE_NUM_PULSE_COLORS : Int := 3

def S_RING_CHASE_COLORS : List CHSVc :=
  [⟨190, 255, 255⟩, ⟨30, 255, 255⟩, ⟨96, 255, 255⟩]

def S_RING_CHASE_PULSE_FREQUENCY : Int := 45

def S_RING_CHASE_FALLOF_RATE : Int := 8

def S_RING_CHASE_RING_SHIFT_FREQUENCY : Int := 2

def S_TWINKLE_NUM_COLORS : Int := 1

/-- Twinkle palette: declared with 3 slots in the source but only one
initializer, so the remaining entries are zero-initialized. -/
def S_TWINKLE_COLORS : List CHSVc :=
  [⟨190, 255, 255⟩, ⟨0, 0, 0⟩, ⟨0, 0, 0⟩]

def S_TWINKLE_FREQUENCY : Int := 2

def S_TWINKLE_FALLOFF_RATE : Int := 10

def S_TWINKLE_BRIGHTNESS_VARIANCE : Int := 100

def S_TRACE_CHASE_NUM_COLORS : Int := 3

def S_TRACE_CHASE_COLORS : List CHSVc :=
  [⟨190, 255, 255⟩, ⟨30, 255, 255⟩, ⟨96, 255, 255⟩]

def S_TRACE_FALLOFF_RATE : Int := 25

def S_TRACE_SPEED : Nat := 3

def S_TRACE_OFFSET : Int := 15

/-! ## Color Buffer -/

/-- The global `leds` array, `NUM_STRIP_LEDS * NUM_STRIPS` entries. -/
abbrev Buf := List CHSVc

/-- Index of the first LED of a strip: `stripIndex * NUM_STRIP_LEDS`. -/
def GetStrip (stripIndex : Int) : Int := stripIndex * (NUM_STRIP_LEDS : Int)

/-- A recorded store `leds[idx] = val`. -/
structure PaintEv where
  idx : Int
  val : CHSVc
deriving DecidableEq, Repr

/-- Perform a store into the buffer (indices are produced as `int` in the
source; an in-range index is a `Nat`). -/
def bufSet (b : Buf) (i : Int) (c : CHSVc) : Buf := b.set i.toNat c

/-- Arduino `random(min, max)`: a value in `[min, max-1]`, obtained from
the raw entropy `x` exactly as the Arduino core reduces it. -/
def randomRange (lo hi : Int) (x : Nat) : Int :=
  lo + ((x % (hi - lo).toNat : Nat) : Int)

/-- Arduino `random(n)`: a value in `[0, n-1]`. -/
def randomUpto (n : Int) (x : Nat) : Int := ((x % n.toNat : Nat) : Int)

/-! ## Scheduler (`loop`, lines 778-799) -/

/-- The scheduler globals: `sequenceTimer` and `ledSequence`. -/
structure SchedState where
  sequenceTimer : Int
  ledSequence : Int
deriving DecidableEq, Repr

/-- Hook invocations performed by one pass of `loop`. -/
structure SchedEvents where
  wrapupFired : Bool
  initFiredOn : Option Int
deriving DecidableEq, Repr

/-- One pass of `loop` (without the active sequence's `Update`, which does
not feed back into the scheduler state): decrement the timer, fire
`WrapUp` when it equals the warning offset, and on falling below zero
advance the sequence index circularly, fire `Init` on the new sequence
and reset the timer. -/
def loopStep (st : SchedState) : SchedState × SchedEvents :=
  let t := st.sequenceTimer - 1
  let w : Bool := t == WRAPUP_WARNING_OFFSET
  if t < 0 then
    let s := if st.ledSequence + 1 > NUM_SEQUENCES - 1 then 0 else st.ledSequence + 1
    (⟨SEQUENCE_DURATION, s⟩, ⟨w, some s⟩)
  else
    (⟨t, st.ledSequence⟩, ⟨w, none⟩)

/-- Scheduler state at startup: `sequenceTimer = SEQUENCE_DURATION`,
`ledSequence = 0` (and `setup` has already invoked `Init` on sequence 0). -/
def schedInit : SchedState := ⟨SEQUENCE_DURATION, 0⟩

/-- Run `n` scheduler ticks from `st`, collecting the hook events of each
tick in order. -/
def schedRunAux : Nat → SchedState → SchedState × List SchedEvents
  | 0, st => (st, [])
  | n + 1, st =>
      let p := loopStep st
      let r := schedRunAux n p.1
      (r.1, p.2 :: r.2)

/-- Run `n` scheduler ticks from the initial state. -/
def schedRun (n : Nat) : SchedState × List SchedEvents := schedRunAux n schedInit

/-- Scheduler state after `n` ticks. -/
def schedState (n : Nat) : SchedState := (schedRun n).1

theorem schedRunAux_fst (n : Nat) :
    ∀ st : SchedState, (schedRunAux n st).1 = (fun s => (loopStep s).1)^[n] st := by
  induction n with
  | zero => intro st; rfl
  | succ n ih =>
      intro st
      rw [Function.iterate_succ_apply]
      exact ih ((loopStep st).1)

/-- C1: with `SEQUENCE_DURATION = 300`, `WRAPUP_WARNING_OFFSET = 20` and 3
registered sequences, starting from the initial state (index 0, timer
300, `Init` already run): over the first three cycles (903 ticks, ticks
numbered from 1) `WrapUp` fires exactly at ticks 280, 581 and 882 — once
per cycle, at the tick where the decremented countdown equals the wrap-up
offset (tick 280 of each 301-tick cycle); `Init` fires exactly at ticks
301, 602 and 903, on sequences 1, 2 and 0 respectively — so after 301
ticks `Init` has fired on index 1 and the countdown is back to 300; the
full scheduler state is periodic with period 903 ticks = 3 cycles, so the
sequence index is periodic with period 3 cycles. -/
theorem c1_scheduler_cycle :
    ((((schedRun 903).2.enum).filter (fun p => p.2.wrapupFired)).map Prod.fst
        = [279, 580, 881])
    ∧ ((((schedRun 903).2.enum).filter (fun p => p.2.initFiredOn.isSome)).map
          (fun p => (p.1, p.2.initFiredOn))
        = [(300, some 1), (601, some 2), (902, some 0)])
    ∧ schedState 301 = ⟨300, 1⟩
    ∧ schedState 903 = schedInit
    ∧ ∀ n : Nat, schedState (n + 903) = schedState n := by
  refine ⟨by decide, by decide, by decide, by decide, ?_⟩
  intro n
  have h903 : schedState 903 = schedInit := by decide
  show (schedRun (n + 903)).1 = (schedRun n).1
  unfold schedRun
  rw [schedRunAux_fst, schedRunAux_fst, Function.iterate_add_apply]
  have h : (fun s => (loopStep s).1)^[903] schedInit = schedInit := by
    rw [← schedRunAux_fst 903 schedInit]
    exact h903
  rw [h]

/-! ## S_RingChase (lines 517-595) -/

/-- The timer/index members of `S_RingChase`. -/
structure RCTimers where
  pulseTimer : Int
  pulseRingShiftTimer : Int
  pulseRingIndex : Int
  pulseColorIndex : Int
deriving DecidableEq, Repr

/-- Full `S_RingChase` state: per-ring colors plus the timers. -/
structure RCState where
  rings : List CHSVc
  timers : RCTimers
deriving DecidableEq, Repr

/-- The color-index advance performed when a pulse starts:
`pulseColorIndex + 1 >= S_RING_CHASE_NUM_PULSE_COLORS ? 0 : pulseColorIndex + 1`. -/
def rcAdvanceColor (c : Int) : Int :=
  if c + 1 ≥ S_RING_CHASE_NUM_PULSE_COLORS then 0 else c + 1

/-- Read `S_RING_CHASE_COLORS[i]`.  An out-of-range `i` is undefined
behavior in the source; the embedding returns the (arbitrary) default
`⟨0,0,0⟩` there.  `rcUpdate` only ever reads with `i ∈ [0,3)` from
reachable states; the one out-of-range read (the constructor, index 3) is
kept explicit in `rcConstructed`. -/
def rcPaletteRead (i : Int) : CHSVc := S_RING_CHASE_COLORS.getD i.toNat ⟨0, 0, 0⟩

/-- Timer half of one `S_RingChase::Update`: the pulse branch, the
`pulseTimer--`, the ring-shift branch and the `pulseRingShiftTimer--`, in
source order.  The ring assignments the two branches perform are returned
as events `(ring index, palette index)`; they do not feed back into the
timers. -/
def rcTick (t : RCTimers) : RCTimers × List (Int × Int) :=
  let fire1 := t.pulseTimer ≤ 0
  let t1 :=
    if fire1 then
      { pulseTimer := S_RING_CHASE_PULSE_FREQUENCY,
        pulseRingShiftTimer := S_RING_CHASE_RING_SHIFT_FREQUENCY,
        pulseRingIndex := 1,
        pulseColorIndex := rcAdvanceColor t.pulseColorIndex }
    else t
  let e1 : List (Int × Int) := if fire1 then [(0, t1.pulseColorIndex)] else []
  let t1 := { t1 with pulseTimer := t1.pulseTimer - 1 }
  let fire2 := t1.pulseRingShiftTimer ≤ 0 ∧ t1.pulseRingIndex < (NUM_STRIPS : Int)
  let t2 :=
    if fire2 then
      { t1 with
        pulseRingShiftTimer := S_RING_CHASE_RING_SHIFT_FREQUENCY,
        pulseRingIndex := t1.pulseRingIndex + 1 }
    else t1
  let e2 : List (Int × Int) := if fire2 then [(t1.pulseRingIndex, t1.pulseColorIndex)] else []
  let t2 := { t2 with pulseRingShiftTimer := t2.pulseRingShiftTimer - 1 }
  (t2, e1 ++ e2)

/-- Apply the recorded ring assignments `rings[k] = S_RING_CHASE_COLORS[c]`. -/
def applyRingEvents (rings : List CHSVc) (evs : List (Int × Int)) : List CHSVc :=
  evs.foldl (fun r e => r.set e.1.toNat (rcPaletteRead e.2)) rings

/-- The per-tick linear falloff on a ring's value channel:
`rings[i].v - S_RING_CHASE_FALLOF_RATE < 0 ? 0 : rings[i].v - S_RING_CHASE_FALLOF_RATE`. -/
def fallV (v : Int) : Int :=
  if v - S_RING_CHASE_FALLOF_RATE < 0 then 0 else v - S_RING_CHASE_FALLOF_RATE

/-- Falloff applied to a ring (hue and saturation kept). -/
def rcDecay (c : CHSVc) : CHSVc := ⟨c.h, c.s, fallV c.v⟩

/-- The paint loop: `leds[GetStrip(i) + j] = rings[i]` for every strip `i`
and offset `j`, recording each store (newest first; `rcPaint` restores
execution order). -/
def rcPaintAux (rings : List CHSVc) (acc : Buf × List PaintEv) : Buf × List PaintEv :=
  (List.range NUM_STRIPS).foldl
    (fun acc1 i =>
      (List.range NUM_STRIP_LEDS).foldl
        (fun acc2 j =>
          let idx : Int := GetStrip (Int.ofNat i) + (Int.ofNat j)
          let c := rings.getD i ⟨0, 0, 0⟩
          (bufSet acc2.1 idx c, (⟨idx, c⟩ : PaintEv) :: acc2.2))
        acc1)
    acc

/-- The paint loop with its stores listed in execution order. -/
def rcPaint (rings : List CHSVc) (buf : Buf) : Buf × List PaintEv :=
  ((rcPaintAux rings (buf, [])).1, (rcPaintAux rings (buf, [])).2.reverse)

/-- One `S_RingChase::Update` against buffer `buf`. -/
def rcUpdate (s : RCState) (buf : Buf) : RCState × Buf × List PaintEv :=
  let p := rcTick s.timers
  let rings1 := applyRingEvents s.rings p.2
  let rings2 := rings1.map rcDecay
  let q := rcPaint rings2 buf
  (⟨rings2, p.1⟩, q.1, q.2)

/-- `S_RingChase::Init`: resets the four timer/index members; the `rings`
array is not touched. -/
def rcInit (s : RCState) : RCState :=
  ⟨s.rings, ⟨0, 0, 0, S_RING_CHASE_NUM_PULSE_COLORS⟩⟩

/-- `S_RingChase::WrapUp`: sets `pulseTimer = 9999`; the buffer is
untouched. -/
def rcWrapUp (s : RCState) (buf : Buf) : RCState × Buf :=
  (⟨s.rings, { s.timers with pulseTimer := 9999 }⟩, buf)

/-- The `S_RingChase` constructor: member initializers set
`pulseColorIndex = S_RING_CHASE_NUM_PULSE_COLORS`, then the body fills
every ring with `S_RING_CHASE_COLORS[pulseColorIndex]` — an out-of-bounds
read, whose (unknowable) result is the parameter `oob`. -/
def rcConstructed (oob : CHSVc) : RCState :=
  ⟨List.replicate NUM_STRIPS
      (S_RING_CHASE_COLORS.getD (S_RING_CHASE_NUM_PULSE_COLORS).toNat oob),
   ⟨0, 0, 0, S_RING_CHASE_NUM_PULSE_COLORS⟩⟩

/-- Run `n` ring-chase ticks, collecting each tick's ring-assignment
events (one list per tick, in order). -/
def rcTickRun : RCTimers → Nat → RCTimers × List (List (Int × Int))
  | t, 0 => (t, [])
  | t, n + 1 =>
      let p := rcTick t
      let r := rcTickRun p.1 n
      (r.1, p.2 :: r.2)

/-- C10: the `S_RingChase` constructor (and `Init`) set `pulseColorIndex`
to the palette length 3, and the constructor reads
`S_RING_CHASE_COLORS[pulseColorIndex]` with that index — one past the end
of the 3-element palette (`get? = none`), so every initial ring color is
the out-of-bounds read result `oob`, not a palette entry. -/
theorem c10_constructor_oob_read :
    S_RING_CHASE_COLORS.length = 3
    ∧ (∀ oob : CHSVc,
        (rcConstructed oob).timers.pulseColorIndex = S_RING_CHASE_NUM_PULSE_COLORS
        ∧ (rcInit (rcConstructed oob)).timers.pulseColorIndex = S_RING_CHASE_NUM_PULSE_COLORS
        ∧ S_RING_CHASE_COLORS.get? (S_RING_CHASE_NUM_PULSE_COLORS).toNat = none
        ∧ (rcConstructed oob).rings = List.replicate NUM_STRIPS oob) := by
  refine ⟨rfl, fun oob => ⟨rfl, rfl, rfl, ?_⟩⟩
  show List.replicate NUM_STRIPS (S_RING_CHASE_COLORS.getD 3 oob) = List.replicate NUM_STRIPS oob
  rfl

/-- On a tick where the pulse branch fires, ring 0 is assigned the
advanced palette index; the shift branch cannot also fire (the shift
timer was just reloaded), so the timers leave as computed here. -/
theorem rcTick_pulse (t : RCTimers) (ht : t.pulseTimer ≤ 0) :
    rcTick t = (⟨S_RING_CHASE_PULSE_FREQUENCY - 1, 1, 1,
                  rcAdvanceColor t.pulseColorIndex⟩,
                [(0, rcAdvanceColor t.pulseColorIndex)]) := by
  simp only [rcTick, if_pos ht]
  rfl

/-- C5: (a) on any tick where the pulse branch fires (`pulseTimer ≤ 0`),
ring 0 is assigned the advanced palette index and the timers leave with
`pulseTimer = 44`, `pulseRingShiftTimer = 1`, `pulseRingIndex = 1`;
(b) from that post-pulse timer state, for each palette index `c ∈ {0,1,2}`
the following `S_RING_CHASE_RING_SHIFT_FREQUENCY × (NUM_STRIPS − 1) = 14`
ticks assign ring `k` the same pulse index `c` at tick `2k` after the
pulse, so every ring 1..7 has received the pulse color within exactly 14
ticks (ring 0 received it at the pulse tick itself);
(c) successive pulses advance the palette index with period 3: from the
initial state the first four pulses occur at ticks 1, 46, 91, 136 with
palette indices 0, 1, 2, 0, and three advances return any in-range index
to itself. -/
theorem c5_ringchase_pulse_propagation :
    (∀ t : RCTimers, t.pulseTimer ≤ 0 →
        rcTick t = (⟨S_RING_CHASE_PULSE_FREQUENCY - 1, 1, 1,
                      rcAdvanceColor t.pulseColorIndex⟩,
                    [(0, rcAdvanceColor t.pulseColorIndex)]))
    ∧ (∀ c : Int, c = 0 ∨ c = 1 ∨ c = 2 →
        (rcTickRun ⟨S_RING_CHASE_PULSE_FREQUENCY - 1, 1, 1, c⟩ 14).2
          = [[], [(1, c)], [], [(2, c)], [], [(3, c)], [], [(4, c)],
             [], [(5, c)], [], [(6, c)], [], [(7, c)]])
    ∧ ((rcTickRun ⟨0, 0, 0, S_RING_CHASE_NUM_PULSE_COLORS⟩ 136).2.flatten.filter
          (fun e => e.1 == 0) = [(0, 0), (0, 1), (0, 2), (0, 0)])
    ∧ (∀ c : Int, 0 ≤ c → c < S_RING_CHASE_NUM_PULSE_COLORS →
        rcAdvanceColor (rcAdvanceColor (rcAdvanceColor c)) = c) := by
  refine ⟨?_, ?_, by decide, ?_⟩
  · intro t ht
    exact rcTick_pulse t ht
  · intro c hc
    rcases hc with h | h | h <;> subst h <;> decide
  · intro c h0 h3
    have : c = 0 ∨ c = 1 ∨ c = 2 := by
      simp only [S_RING_CHASE_NUM_PULSE_COLORS] at h3
      omega
    rcases this with h | h | h <;> subst h <;> decide

/-- Witness for `c5_ringchase_pulse_propagation`: instantiated at the
post-`Init` timers (`pulseTimer = 0 ≤ 0`, `pulseColorIndex = 3`) and at
palette index 0. -/
theorem c5_ringchase_pulse_propagation_witness :
    rcTick ⟨0, 0, 0, S_RING_CHASE_NUM_PULSE_COLORS⟩
        = (⟨S_RING_CHASE_PULSE_FREQUENCY - 1, 1, 1, 0⟩, [(0, 0)])
    ∧ (rcTickRun ⟨S_RING_CHASE_PULSE_FREQUENCY - 1, 1, 1, 0⟩ 14).2
        = [[], [(1, 0)], [], [(2, 0)], [], [(3, 0)], [], [(4, 0)],
           [], [(5, 0)], [], [(6, 0)], [], [(7, 0)]]
    ∧ rcAdvanceColor (rcAdvanceColor (rcAdvanceColor 2)) = 2 := by
  have h := c5_ringchase_pulse_propagation
  refine ⟨?_, h.2.1 0 (by decide), h.2.2.2 2 (by decide) (by decide)⟩
  have h1 := h.1 ⟨0, 0, 0, S_RING_CHASE_NUM_PULSE_COLORS⟩ (by decide)
  rw [h1]
  decide

/-! ## FastLED `nscale8` and channel ranges -/

/-- FastLED `scale8` (SCALE8_FIXED): `(i * (1 + scale)) >> 8` on 8-bit
values. -/
def scale8 (i scale : Int) : Int := i * (scale + 1) / 256

/-- FastLED `CRGB::nscale8`: every channel scaled by `scale`.  The
HSV→RGB conversion between the written `CHSV` triple and the stored
channels is abstracted as the identity (out of scope per the spec). -/
def nscale8 (c : CHSVc) (scale : Int) : CHSVc :=
  ⟨scale8 c.h scale, scale8 c.s scale, scale8 c.v scale⟩

/-- All three channels of a color lie in the 8-bit range. -/
abbrev inRange (c : CHSVc) : Prop :=
  0 ≤ c.h ∧ c.h ≤ 255 ∧ 0 ≤ c.s ∧ c.s ≤ 255 ∧ 0 ≤ c.v ∧ c.v ≤ 255

/-- Every color of a buffer lies in the 8-bit range. -/
abbrev bufInRange (b : Buf) : Prop := ∀ c ∈ b, inRange c

theorem scale8_nonneg {i scale : Int} (hi : 0 ≤ i) (hs : 0 ≤ scale) :
    0 ≤ scale8 i scale :=
  Int.ediv_nonneg (by positivity) (by norm_num)

theorem scale8_le {i scale : Int} (hi : 0 ≤ i) (hs : scale ≤ 255) :
    scale8 i scale ≤ i := by
  have h1 : i * (scale + 1) ≤ i * 256 := by nlinarith
  calc i * (scale + 1) / 256 ≤ i * 256 / 256 := Int.ediv_le_ediv (by norm_num) h1
    _ = i := Int.mul_ediv_cancel i (by norm_num)

theorem nscale8_inRange {c : CHSVc} {scale : Int} (hc : inRange c)
    (h0 : 0 ≤ scale) (h255 : scale ≤ 255) : inRange (nscale8 c scale) := by
  obtain ⟨h1, h2, h3, h4, h5, h6⟩ := hc
  refine ⟨scale8_nonneg h1 h0, le_trans (scale8_le h1 h255) h2,
          scale8_nonneg h3 h0, le_trans (scale8_le h3 h255) h4,
          scale8_nonneg h5 h0, le_trans (scale8_le h5 h255) h6⟩

/-! ## Generic list helpers -/

theorem set_forall {α : Type} {P : α → Prop} :
    ∀ (l : List α) (i : Nat) (a : α), (∀ x ∈ l, P x) → P a → ∀ x ∈ l.set i a, P x := by
  intro l
  induction l with
  | nil => intro i a _ _ x hx; simp at hx
  | cons y ys ih =>
      intro i a hl ha x hx
      cases i with
      | zero =>
          simp only [List.set, List.mem_cons] at hx
          rcases hx with h | h
          · exact h ▸ ha
          · exact hl x (List.mem_cons_of_mem y h)
      | succ j =>
          simp only [List.set, List.mem_cons] at hx
          rcases hx with h | h
          · exact hl x (h ▸ List.mem_cons_self y ys)
          · exact ih j a (fun z hz => hl z (List.mem_cons_of_mem y hz)) ha x h

theorem getD_forall {α : Type} {P : α → Prop} :
    ∀ (l : List α) (n : Nat) (d : α), (∀ x ∈ l, P x) → P d → P (l.getD n d) := by
  intro l
  induction l with
  | nil => intro n d _ hd; simpa [List.getD] using hd
  | cons y ys ih =>
      intro n d hl hd
      cases n with
      | zero => exact hl y (List.mem_cons_self y ys)
      | succ m =>
          simp only [List.getD_cons_succ]
          exact ih m d (fun z hz => hl z (List.mem_cons_of_mem y hz)) hd

theorem getD_set_self {α : Type} :
    ∀ (l : List α) (i : Nat) (a d : α), i < l.length → (l.set i a).getD i d = a := by
  intro l
  induction l with
  | nil => intro i a d h; simp at h
  | cons y ys ih =>
      intro i a d h
      cases i with
      | zero => rfl
      | succ j =>
          simp only [List.set, List.getD_cons_succ]
          exact ih j a d (by simpa using h)

theorem getD_set_ne {α : Type} :
    ∀ (l : List α) (i j : Nat) (a d : α), i ≠ j → (l.set i a).getD j d = l.getD j d := by
  intro l
  induction l with
  | nil => intro i j a d _; simp [List.set]
  | cons y ys ih =>
      intro i j a d hij
      cases i with
      | zero =>
          cases j with
          | zero => exact absurd rfl hij
          | succ m => rfl
      | succ k =>
          cases j with
          | zero => rfl
          | succ m =>
              simp only [List.set, List.getD_cons_succ]
              exact ih k m a d (fun h => hij (by rw [h]))

/-! ## S_Twinkle (lines 600-632) -/

/-- `S_Twinkle` state: just the timer. -/
structure TWState where
  twinkleTimer : Int
deriving DecidableEq, Repr

/-- `S_Twinkle::Init`: empty body. -/
def twInit (s : TWState) : TWState := s

/-- `S_Twinkle::WrapUp`: empty body. -/
def twWrapUp (s : TWState) (buf : Buf) : TWState × Buf := (s, buf)

/-- The twinkle position: `random(1, NUM_STRIPS * NUM_STRIP_LEDS - 2)`. -/
def twPos (x : Nat) : Int :=
  randomRange 1 ((NUM_STRIPS : Int) * (NUM_STRIP_LEDS : Int) - 2) x

/-- The twinkle brightness: `random(255 - S_TWINKLE_BRIGHTNESS_VARIANCE, 255)`. -/
def twBrightness (y : Nat) : Int :=
  randomRange (255 - S_TWINKLE_BRIGHTNESS_VARIANCE) 255 y

/-- The twinkle color: `S_TWINKLE_COLORS[random(S_TWINKLE_NUM_COLORS)]`. -/
def twColor (z : Nat) : CHSVc :=
  S_TWINKLE_COLORS.getD (randomUpto S_TWINKLE_NUM_COLORS z).toNat ⟨0, 0, 0⟩

/-- The value stored by a twinkle: `CHSV(color.h, color.s, brightness)`. -/
def twWrite (y z : Nat) : CHSVc := ⟨(twColor z).h, (twColor z).s, twBrightness y⟩

/-- One `S_Twinkle::Update`.  `x`, `y`, `z` are the raw entropy values
consumed by the three `random` calls (position, brightness, color). -/
def twUpdate (s : TWState) (buf : Buf) (x y z : Nat) : TWState × Buf × List PaintEv :=
  let fire := s.twinkleTimer ≤ 0
  let t1 := if fire then S_TWINKLE_FREQUENCY else s.twinkleTimer
  let buf1 := if fire then bufSet buf (twPos x) (twWrite y z) else buf
  let evs : List PaintEv := if fire then [⟨twPos x, twWrite y z⟩] else []
  (⟨t1 - 1⟩, buf1.map (fun c => nscale8 c (255 - S_TWINKLE_FALLOFF_RATE)), evs)

theorem twUpdate_evs_eq (s : TWState) (buf : Buf) (x y z : Nat) :
    (twUpdate s buf x y z).2.2
      = if s.twinkleTimer ≤ 0 then [⟨twPos x, twWrite y z⟩] else [] := rfl

theorem twUpdate_buf_eq (s : TWState) (buf : Buf) (x y z : Nat) :
    (twUpdate s buf x y z).2.1
      = (if s.twinkleTimer ≤ 0 then bufSet buf (twPos x) (twWrite y z) else buf).map
          (fun c => nscale8 c (255 - S_TWINKLE_FALLOFF_RATE)) := rfl

theorem twPos_bound (x : Nat) : 1 ≤ twPos x ∧ twPos x ≤ 1197 := by
  have h : twPos x = 1 + ((x % 1197 : Nat) : Int) := rfl
  have hx : x % 1197 < 1197 := Nat.mod_lt x (by norm_num)
  omega

theorem twBrightness_bound (y : Nat) : 155 ≤ twBrightness y ∧ twBrightness y ≤ 254 := by
  have h : twBrightness y = 155 + ((y % 100 : Nat) : Int) := rfl
  have hy : y % 100 < 100 := Nat.mod_lt y (by norm_num)
  omega

/-- The buffer at startup (`FastLED.clear()`): all channels zero. -/
def buf0 : Buf := List.replicate (NUM_STRIPS * NUM_STRIP_LEDS) ⟨0, 0, 0⟩

/-- C6: on every tick on which the twinkle timer fires, the chosen
position lies in `[1, 1197]` — for every value the random source can
return — hence is neither 0 nor the last buffer index 1199; and the
brightness written lies in `[155, 254] ⊆ [255 − variance, 255]`. -/
theorem c6_twinkle_bounds (s : TWState) (buf : Buf) (x y z : Nat) :
    ∀ e ∈ (twUpdate s buf x y z).2.2,
      1 ≤ e.idx ∧ e.idx ≤ 1197
        ∧ e.idx ≠ 0 ∧ e.idx ≠ (NUM_STRIPS : Int) * (NUM_STRIP_LEDS : Int) - 1
        ∧ 255 - S_TWINKLE_BRIGHTNESS_VARIANCE ≤ e.val.v ∧ e.val.v ≤ 255 := by
  intro e he
  rw [twUpdate_evs_eq] at he
  by_cases hf : s.twinkleTimer ≤ 0
  · rw [if_pos hf, List.mem_singleton] at he
    subst he
    obtain ⟨hp1, hp2⟩ := twPos_bound x
    obtain ⟨hb1, hb2⟩ := twBrightness_bound y
    refine ⟨hp1, hp2, ?_, ?_, ?_, ?_⟩
    · show twPos x ≠ 0
      omega
    · show twPos x ≠ (NUM_STRIPS : Int) * (NUM_STRIP_LEDS : Int) - 1
      have hmul : (NUM_STRIPS : Int) * (NUM_STRIP_LEDS : Int) - 1 = 1199 := rfl
      omega
    · show 255 - S_TWINKLE_BRIGHTNESS_VARIANCE ≤ twBrightness y
      simp only [S_TWINKLE_BRIGHTNESS_VARIANCE]
      omega
    · show twBrightness y ≤ 255
      omega
  · rw [if_neg hf] at he
    exact absurd he (List.not_mem_nil e)

/-- Witness for `c6_twinkle_bounds`: the fresh-state tick with all
entropy 0 fires and its single write satisfies the bounds. -/
theorem c6_twinkle_bounds_witness :
    (twUpdate ⟨0⟩ buf0 0 0 0).2.2 = [⟨1, ⟨190, 255, 155⟩⟩]
      ∧ (1 ≤ (1 : Int) ∧ (1 : Int) ≤ 1197
          ∧ (1 : Int) ≠ 0 ∧ (1 : Int) ≠ (NUM_STRIPS : Int) * (NUM_STRIP_LEDS : Int) - 1
          ∧ 255 - S_TWINKLE_BRIGHTNESS_VARIANCE ≤ (155 : Int) ∧ (155 : Int) ≤ 255) := by
  have h := c6_twinkle_bounds ⟨0⟩ buf0 0 0 0 ⟨1, ⟨190, 255, 155⟩⟩ (by decide)
  exact ⟨by decide, h⟩

/-- C3 counterexample (Twinkle): after one prior `Update` tick the
twinkle timer holds 1; `Init` is a no-op, so `Init` followed by `Update`
skips the twinkle (ending with timer 0 and leaving LED 1 dark), while the
first `Update` of a fresh instance (timer 0) fires a twinkle (ending with
timer 1 and lighting LED 1).  Both the resulting internal state and the
Color Buffer output differ, at the same entropy values and starting
buffer. -/
theorem c3_init_roundtrip_counterexample :
    ((twUpdate (twInit (twUpdate ⟨0⟩ buf0 0 0 0).1) buf0 0 0 0).1
        ≠ (twUpdate ⟨0⟩ buf0 0 0 0).1)
    ∧ ((twUpdate (twInit (twUpdate ⟨0⟩ buf0 0 0 0).1) buf0 0 0 0).2.1.getD 1 ⟨0, 0, 0⟩
        ≠ (twUpdate ⟨0⟩ buf0 0 0 0).2.1.getD 1 ⟨0, 0, 0⟩) := by
  exact ⟨by decide, by decide⟩

/-! ## S_TraceChase (lines 637-735), compiled with `ZIG_ZAG = 1` -/

/-- `S_TraceChase` state: one position per strip plus the shared palette
index.  The source class has no constructor in this snapshot: `traces` is
uninitialized until `Init` runs (and the scheduler always runs `Init`
before the first `Update`). -/
structure TCState where
  traces : List Int
  traceColorIndex : Int
deriving DecidableEq, Repr

/-- A recorded trace store: which strip, which buffer index, and which
palette index was in `traceColorIndex` at the store. -/
structure TraceEv where
  strip : Nat
  idx : Int
  colorIdx : Int
deriving DecidableEq, Repr

/-- Forward single-step: `traces[i]++; if (traces[i] > NUM_STRIP_LEDS - 1) traces[i] = 0`. -/
def tcStepFwd (p : Int) : Int :=
  if p + 1 > (NUM_STRIP_LEDS : Int) - 1 then 0 else p + 1

/-- Backward single-step: `traces[i]--; if (traces[i] < 0) traces[i] = NUM_STRIP_LEDS - 1`. -/
def tcStepBwd (p : Int) : Int :=
  if p - 1 < 0 then (NUM_STRIP_LEDS : Int) - 1 else p - 1

/-- Direction under `ZIG_ZAG`: odd strips iterate backwards. -/
def tcDirStep (i : Nat) (p : Int) : Int :=
  if i % 2 = 1 then tcStepBwd p else tcStepFwd p

/-- `traceColorIndex++` with wrap at `S_TRACE_CHASE_NUM_COLORS`. -/
def tcAdvanceCI (ci : Int) : Int :=
  if ci + 1 > S_TRACE_CHASE_NUM_COLORS - 1 then 0 else ci + 1

/-- Loop accumulator for `S_TraceChase::Update`: the mutated members, the
buffer, and the recorded stores. -/
structure TCAcc where
  traces : List Int
  ci : Int
  buf : Buf
  evs : List TraceEv

/-- One iteration of the inner `S_TRACE_SPEED` loop on strip `i`: advance
`traces[i]` one step (direction by parity of `i`) and paint
`leds[GetStrip(i) + traces[i]] = S_TRACE_CHASE_COLORS[traceColorIndex]`. -/
def tcTraceStep (i : Nat) (a : TCAcc) : TCAcc :=
  let p := tcDirStep i (a.traces.getD i 0)
  let idx : Int := GetStrip (Int.ofNat i) + p
  { a with
    traces := a.traces.set i p,
    buf := bufSet a.buf idx (S_TRACE_CHASE_COLORS.getD a.ci.toNat ⟨0, 0, 0⟩),
    evs := a.evs ++ [⟨i, idx, a.ci⟩] }

/-- The body of the per-strip loop of `S_TraceChase::Update`: run the
inner loop `S_TRACE_SPEED` times, then advance `traceColorIndex`. -/
def tcStripPass (acc : TCAcc) (i : Nat) : TCAcc :=
  let inner := (List.range S_TRACE_SPEED).foldl (fun a _ => tcTraceStep i a) acc
  { inner with ci := tcAdvanceCI inner.ci }

/-- One `S_TraceChase::Update`: the per-strip loop, then
`traceColorIndex = 0`, then the multiplicative falloff pass. -/
def tcUpdate (s : TCState) (buf : Buf) : TCState × Buf × List TraceEv :=
  let r := (List.range NUM_STRIPS).foldl tcStripPass ⟨s.traces, s.traceColorIndex, buf, []⟩
  (⟨r.traces, 0⟩, r.buf.map (fun c => nscale8 c (255 - S_TRACE_FALLOFF_RATE)), r.evs)

/-- `S_TraceChase::Init` under `ZIG_ZAG`: `traces[0] = 0`; odd strips get
`NUM_STRIP_LEDS - i * S_TRACE_OFFSET`, even strips `i * S_TRACE_OFFSET`.
`traceColorIndex` is not touched. -/
def tcInit (s : TCState) : TCState :=
  ⟨(List.range NUM_STRIPS).map (fun i =>
      if i = 0 then 0
      else if i % 2 = 1 then (NUM_STRIP_LEDS : Int) - (Int.ofNat i) * S_TRACE_OFFSET
      else (Int.ofNat i) * S_TRACE_OFFSET),
   s.traceColorIndex⟩

/-- `S_TraceChase::WrapUp`: empty body. -/
def tcWrapUp (s : TCState) (buf : Buf) : TCState × Buf := (s, buf)

/-- A fresh `S_TraceChase` instance brought to its first usable state by
`Init` (the class has no constructor; `traces` holds no defined values
before `Init`, and `traceColorIndex`'s member initializer is 0). -/
def tcFreshInit : TCState := tcInit ⟨List.replicate NUM_STRIPS 0, 0⟩

/-- The state after an `Update`, which is independent of the buffer
contents (the update writes the buffer but never reads it). -/
def tcAdvance (s : TCState) : TCState := (tcUpdate s []).1

/-- Positions in `[0, NUM_STRIP_LEDS)`. -/
abbrev posInRange (p : Int) : Prop := 0 ≤ p ∧ p < (NUM_STRIP_LEDS : Int)

theorem tcDirStep_range {i : Nat} {p : Int} (h : posInRange p) :
    posInRange (tcDirStep i p) := by
  rcases h with ⟨h0, h1⟩
  simp only [tcDirStep, tcStepFwd, tcStepBwd, posInRange, NUM_STRIP_LEDS] at *
  split <;> split <;> omega

/-- The trace array written by one pass of the inner loop. -/
def tcStripTraces (i : Nat) (tr : List Int) : List Int :=
  tr.set i (tcDirStep i (tr.getD i 0))

theorem tcTraceStep_traces (i : Nat) (a : TCAcc) :
    (tcTraceStep i a).traces = tcStripTraces i a.traces := rfl

theorem tcTraceStep_ci (i : Nat) (a : TCAcc) : (tcTraceStep i a).ci = a.ci := rfl

theorem tcStripPass_traces_raw (acc : TCAcc) (i : Nat) :
    (tcStripPass acc i).traces
      = tcStripTraces i (tcStripTraces i (tcStripTraces i acc.traces)) := rfl

theorem tcStripPass_ci (acc : TCAcc) (i : Nat) :
    (tcStripPass acc i).ci = tcAdvanceCI acc.ci := rfl

theorem tcStripPass_evs_raw (acc : TCAcc) (i : Nat) :
    (tcStripPass acc i).evs
      = acc.evs
        ++ [⟨i, GetStrip (Int.ofNat i) + tcDirStep i (acc.traces.getD i 0), acc.ci⟩]
        ++ [⟨i, GetStrip (Int.ofNat i)
              + tcDirStep i ((tcStripTraces i acc.traces).getD i 0), acc.ci⟩]
        ++ [⟨i, GetStrip (Int.ofNat i)
              + tcDirStep i ((tcStripTraces i (tcStripTraces i acc.traces)).getD i 0), acc.ci⟩]
      := rfl

theorem tcStripTraces_length (i : Nat) (tr : List Int) :
    (tcStripTraces i tr).length = tr.length := List.length_set tr i _

theorem tcStripTraces_range {tr : List Int} (i : Nat)
    (h : ∀ p ∈ tr, posInRange p) : ∀ p ∈ tcStripTraces i tr, posInRange p := by
  refine set_forall tr i _ h (tcDirStep_range ?_)
  exact getD_forall tr i 0 h (by simp [posInRange, NUM_STRIP_LEDS])

theorem tcStripTraces_getD_self {tr : List Int} {i : Nat} (h : i < tr.length) :
    (tcStripTraces i tr).getD i 0 = tcDirStep i (tr.getD i 0) :=
  getD_set_self tr i _ 0 h

theorem tcStripTraces_getD_ne {tr : List Int} {i j : Nat} (h : i ≠ j) :
    (tcStripTraces i tr).getD j 0 = tr.getD j 0 :=
  getD_set_ne tr i j _ 0 h

/-- With `traces[i]` defined, the strip pass applies three direction
steps to `traces[i]` and touches no other entry. -/
theorem tcStripPass_traces (acc : TCAcc) (i : Nat) (hi : i < acc.traces.length) :
    (tcStripPass acc i).traces
      = acc.traces.set i
          (tcDirStep i (tcDirStep i (tcDirStep i (acc.traces.getD i 0)))) := by
  rw [tcStripPass_traces_raw]
  have h1 : i < (tcStripTraces i acc.traces).length := by rw [tcStripTraces_length]; exact hi
  calc tcStripTraces i (tcStripTraces i (tcStripTraces i acc.traces))
      = (tcStripTraces i (tcStripTraces i acc.traces)).set i
          (tcDirStep i ((tcStripTraces i (tcStripTraces i acc.traces)).getD i 0)) := rfl
    _ = (tcStripTraces i (tcStripTraces i acc.traces)).set i
          (tcDirStep i (tcDirStep i (tcDirStep i (acc.traces.getD i 0)))) := by
          rw [tcStripTraces_getD_self h1, tcStripTraces_getD_self hi]
    _ = acc.traces.set i
          (tcDirStep i (tcDirStep i (tcDirStep i (acc.traces.getD i 0)))) := by
          simp only [tcStripTraces, List.set_set]

/-- The accumulator after the first `n` strips of an `Update`. -/
def tcPass (s : TCState) (buf : Buf) (n : Nat) : TCAcc :=
  (List.range n).foldl tcStripPass ⟨s.traces, s.traceColorIndex, buf, []⟩

theorem tcUpdate_eq (s : TCState) (buf : Buf) :
    tcUpdate s buf
      = (⟨(tcPass s buf NUM_STRIPS).traces, 0⟩,
         (tcPass s buf NUM_STRIPS).buf.map (fun c => nscale8 c (255 - S_TRACE_FALLOFF_RATE)),
         (tcPass s buf NUM_STRIPS).evs) := rfl

theorem tcPass_zero (s : TCState) (buf : Buf) :
    tcPass s buf 0 = ⟨s.traces, s.traceColorIndex, buf, []⟩ := rfl

theorem tcUpdate_traces_eq (s : TCState) (buf : Buf) :
    (tcUpdate s buf).1.traces = (tcPass s buf NUM_STRIPS).traces := by
  rw [tcUpdate_eq]

theorem tcUpdate_evs_eq (s : TCState) (buf : Buf) :
    (tcUpdate s buf).2.2 = (tcPass s buf NUM_STRIPS).evs := by
  rw [tcUpdate_eq]

theorem tcUpdate_buf_eq (s : TCState) (buf : Buf) :
    (tcUpdate s buf).2.1
      = (tcPass s buf NUM_STRIPS).buf.map (fun c => nscale8 c (255 - S_TRACE_FALLOFF_RATE)) := by
  rw [tcUpdate_eq]

theorem tcPass_succ (s : TCState) (buf : Buf) (n : Nat) :
    tcPass s buf (n + 1) = tcStripPass (tcPass s buf n) n := by
  unfold tcPass
  rw [List.range_succ, List.foldl_append, List.foldl_cons, List.foldl_nil]

theorem tcPass_ci (s : TCState) (buf : Buf) (hci : s.traceColorIndex = 0) :
    ∀ n : Nat, (tcPass s buf n).ci = Int.ofNat (n % 3) := by
  intro n
  induction n with
  | zero => simpa [tcPass_zero] using hci
  | succ n ih =>
      rw [tcPass_succ, tcStripPass_ci, ih]
      have h3 : n % 3 = 0 ∨ n % 3 = 1 ∨ n % 3 = 2 := by omega
      rcases h3 with h | h | h <;> rw [h] <;>
        [ (have hs : (n + 1) % 3 = 1 := by omega);
          (have hs : (n + 1) % 3 = 2 := by omega);
          (have hs : (n + 1) % 3 = 0 := by omega) ] <;>
        rw [hs] <;> rfl

theorem tcPass_traces_range (s : TCState) (buf : Buf)
    (htr : ∀ p ∈ s.traces, posInRange p) :
    ∀ n : Nat, ∀ p ∈ (tcPass s buf n).traces, posInRange p := by
  intro n
  induction n with
  | zero => simpa [tcPass_zero] using htr
  | succ n ih =>
      rw [tcPass_succ, tcStripPass_traces_raw]
      exact tcStripTraces_range n (tcStripTraces_range n (tcStripTraces_range n ih))

theorem tcPass_traces_length (s : TCState) (buf : Buf) :
    ∀ n : Nat, (tcPass s buf n).traces.length = s.traces.length := by
  intro n
  induction n with
  | zero => rfl
  | succ n ih =>
      rw [tcPass_succ, tcStripPass_traces_raw,
        tcStripTraces_length, tcStripTraces_length, tcStripTraces_length, ih]

/-- Every store recorded by the first `n` strips: strip below `n`, the
palette index equal to `strip mod 3`, and the buffer index is
`GetStrip strip + p` for an in-range position `p`. -/
theorem tcPass_evs (s : TCState) (buf : Buf) (hci : s.traceColorIndex = 0)
    (htr : ∀ p ∈ s.traces, posInRange p) :
    ∀ n : Nat, ∀ e ∈ (tcPass s buf n).evs,
      e.strip < n ∧ e.colorIdx = Int.ofNat (e.strip % 3)
        ∧ ∃ p : Int, posInRange p ∧ e.idx = GetStrip (Int.ofNat e.strip) + p := by
  intro n
  induction n with
  | zero => intro e he; simp [tcPass_zero] at he
  | succ n ih =>
      intro e he
      rw [tcPass_succ, tcStripPass_evs_raw] at he
      have hrange0 : ∀ p ∈ (tcPass s buf n).traces, posInRange p :=
        tcPass_traces_range s buf htr n
      have hrange1 := tcStripTraces_range n hrange0
      have hrange2 := tcStripTraces_range n hrange1
      have hp0 : posInRange ((tcPass s buf n).traces.getD n 0) :=
        getD_forall _ n 0 hrange0 (by simp [posInRange, NUM_STRIP_LEDS])
      have hp1 : posInRange ((tcStripTraces n (tcPass s buf n).traces).getD n 0) :=
        getD_forall _ n 0 hrange1 (by simp [posInRange, NUM_STRIP_LEDS])
      have hp2 : posInRange
          ((tcStripTraces n (tcStripTraces n (tcPass s buf n).traces)).getD n 0) :=
        getD_forall _ n 0 hrange2 (by simp [posInRange, NUM_STRIP_LEDS])
      have hcin := tcPass_ci s buf hci n
      simp only [List.mem_append, List.mem_singleton] at he
      rcases he with ((he | he) | he) | he
      · obtain ⟨h1, h2, h3⟩ := ih e he
        exact ⟨Nat.lt_succ_of_lt h1, h2, h3⟩
      · subst he
        exact ⟨Nat.lt_succ_self n, by simpa using hcin,
          tcDirStep n _, tcDirStep_range hp0, rfl⟩
      · subst he
        exact ⟨Nat.lt_succ_self n, by simpa using hcin,
          tcDirStep n _, tcDirStep_range hp1, rfl⟩
      · subst he
        exact ⟨Nat.lt_succ_self n, by simpa using hcin,
          tcDirStep n _, tcDirStep_range hp2, rfl⟩

theorem tcPass_traces_getD (s : TCState) (buf : Buf)
    (hlen : s.traces.length = NUM_STRIPS) :
    ∀ n : Nat, n ≤ NUM_STRIPS → ∀ j : Nat,
      (j < n → (tcPass s buf n).traces.getD j 0
          = tcDirStep j (tcDirStep j (tcDirStep j (s.traces.getD j 0))))
      ∧ (n ≤ j → (tcPass s buf n).traces.getD j 0 = s.traces.getD j 0) := by
  intro n
  induction n with
  | zero => intro _ j; exact ⟨fun h => absurd h (Nat.not_lt_zero j), fun _ => rfl⟩
  | succ n ih =>
      intro hn j
      have hn8 : n < NUM_STRIPS := hn
      have hlen8 : n < (tcPass s buf n).traces.length := by
        rw [tcPass_traces_length, hlen]; exact hn8
      have hstep := tcStripPass_traces (tcPass s buf n) n hlen8
      constructor
      · intro hj
        rcases Nat.lt_succ_iff_lt_or_eq.mp hj with hj' | hj'
        · rw [tcPass_succ, hstep, getD_set_ne _ _ _ _ _ (Nat.ne_of_gt hj')]
          exact (ih (Nat.le_of_succ_le hn) j).1 hj'
        · subst hj'
          rw [tcPass_succ, hstep, getD_set_self _ _ _ _ hlen8,
            (ih (Nat.le_of_succ_le hn) j).2 (le_refl j)]
      · intro hj
        rw [tcPass_succ, hstep, getD_set_ne _ _ _ _ _ (by omega)]
        exact (ih (Nat.le_of_succ_le hn) j).2 (by omega)

theorem tcPass_buf_indep (s : TCState) (buf buf2 : Buf) :
    ∀ n : Nat, (tcPass s buf n).traces = (tcPass s buf2 n).traces
      ∧ (tcPass s buf n).ci = (tcPass s buf2 n).ci := by
  intro n
  induction n with
  | zero => exact ⟨rfl, rfl⟩
  | succ n ih =>
      rw [tcPass_succ, tcPass_succ, tcStripPass_traces_raw, tcStripPass_traces_raw,
        tcStripPass_ci, tcStripPass_ci, ih.1, ih.2]
      exact ⟨rfl, rfl⟩

theorem tcUpdate_fst (s : TCState) (buf : Buf) : (tcUpdate s buf).1 = tcAdvance s := by
  have h1 : (tcUpdate s buf).1 = ⟨(tcPass s buf NUM_STRIPS).traces, 0⟩ := rfl
  have h2 : tcAdvance s = ⟨(tcPass s ([] : Buf) NUM_STRIPS).traces, 0⟩ := rfl
  rw [h1, h2, (tcPass_buf_indep s buf [] NUM_STRIPS).1]

theorem tcDirStep3_even {j : Nat} (hj : j % 2 = 0) {p : Int} (hp : posInRange p) :
    tcDirStep j (tcDirStep j (tcDirStep j p)) = (p + 3) % 150 := by
  obtain ⟨h0, h1⟩ := hp
  have hne : ¬ j % 2 = 1 := by omega
  simp only [tcDirStep, if_neg hne, tcStepFwd, NUM_STRIP_LEDS] at *
  split_ifs <;> omega

theorem tcDirStep3_odd {j : Nat} (hj : j % 2 = 1) {p : Int} (hp : posInRange p) :
    tcDirStep j (tcDirStep j (tcDirStep j p)) = (p - 3) % 150 := by
  obtain ⟨h0, h1⟩ := hp
  simp only [tcDirStep, if_pos hj, tcStepBwd, NUM_STRIP_LEDS] at *
  split_ifs <;> omega

theorem tcUpdate_traces_getD (s : TCState) (buf : Buf)
    (hlen : s.traces.length = NUM_STRIPS)
    (htr : ∀ p ∈ s.traces, posInRange p) :
    ∀ j : Nat, j < NUM_STRIPS →
      (tcUpdate s buf).1.traces.getD j 0
        = (if j % 2 = 0 then (s.traces.getD j 0 + 3) % 150
           else (s.traces.getD j 0 - 3) % 150) := by
  intro j hj
  have h := (tcPass_traces_getD s buf hlen NUM_STRIPS (le_refl _) j).1 hj
  have hp : posInRange (s.traces.getD j 0) := getD_forall _ _ _ htr (by decide)
  rw [tcUpdate_traces_eq, h]
  by_cases hpar : j % 2 = 0
  · rw [if_pos hpar, tcDirStep3_even hpar hp]
  · rw [if_neg hpar, tcDirStep3_odd (by omega) hp]

theorem tcAdvance_iter (s : TCState) (hlen : s.traces.length = NUM_STRIPS)
    (htr : ∀ p ∈ s.traces, posInRange p) :
    ∀ n : Nat, (tcAdvance^[n] s).traces.length = NUM_STRIPS
      ∧ (∀ p ∈ (tcAdvance^[n] s).traces, posInRange p)
      ∧ ∀ j : Nat, j < NUM_STRIPS →
          (tcAdvance^[n] s).traces.getD j 0
            = (if j % 2 = 0 then (s.traces.getD j 0 + 3 * n) % 150
               else (s.traces.getD j 0 - 3 * n) % 150) := by
  intro n
  induction n with
  | zero =>
      refine ⟨hlen, htr, fun j hj => ?_⟩
      have hp : posInRange (s.traces.getD j 0) := getD_forall _ _ _ htr (by decide)
      obtain ⟨h0, h1⟩ := hp
      simp only [NUM_STRIP_LEDS] at h1
      simp only [Function.iterate_zero, id]
      split_ifs <;> push_cast <;> omega
  | succ n ih =>
      obtain ⟨ihlen, ihrange, ihget⟩ := ih
      rw [Function.iterate_succ_apply']
      set t := tcAdvance^[n] s with ht
      have hadv : tcAdvance t = (tcUpdate t ([] : Buf)).1 := rfl
      have hlen' : (tcAdvance t).traces.length = NUM_STRIPS := by
        rw [hadv, tcUpdate_traces_eq, tcPass_traces_length, ihlen]
      have hrange' : ∀ p ∈ (tcAdvance t).traces, posInRange p := by
        rw [hadv, tcUpdate_traces_eq]
        exact tcPass_traces_range t [] ihrange NUM_STRIPS
      refine ⟨hlen', hrange', fun j hj => ?_⟩
      rw [hadv, tcUpdate_traces_getD t ([] : Buf) ihlen ihrange j hj, ihget j hj]
      split_ifs <;> push_cast <;> omega

/-- C7: with the zig-zag flag set, (a) every `Update` advances strip `j`'s
position by exactly `S_TRACE_SPEED = 3` single steps, net effect
`(p + 3) mod 150` for even strips and `(p − 3) mod 150` for odd strips —
direction determined solely by the parity of the strip index; (b) the
post-`Update` state does not depend on the buffer contents, so positions
evolve autonomously tick after tick; (c) the position sequence is
periodic: after `150 / gcd(3, 150) = 50` ticks (one full traversal of the
`NUM_STRIP_LEDS = 150` positions) every strip's position returns to its
starting value. -/
theorem c7_trace_positions :
    (∀ (s : TCState) (buf : Buf), s.traces.length = NUM_STRIPS →
      (∀ p ∈ s.traces, posInRange p) →
      ∀ j : Nat, j < NUM_STRIPS →
        (tcUpdate s buf).1.traces.getD j 0
          = (if j % 2 = 0 then (s.traces.getD j 0 + 3) % 150
             else (s.traces.getD j 0 - 3) % 150))
    ∧ (∀ (s : TCState) (buf : Buf), (tcUpdate s buf).1 = tcAdvance s)
    ∧ (∀ s : TCState, s.traces.length = NUM_STRIPS →
        (∀ p ∈ s.traces, posInRange p) →
        (tcAdvance^[50] s).traces = s.traces) := by
  refine ⟨tcUpdate_traces_getD, tcUpdate_fst, fun s hlen htr => ?_⟩
  obtain ⟨hlen', _, hget⟩ := tcAdvance_iter s hlen htr 50
  refine List.ext_get (by rw [hlen', hlen]) (fun n h₁ h₂ => ?_)
  have hn : n < NUM_STRIPS := by rw [hlen'] at h₁; exact h₁
  have e1 : (tcAdvance^[50] s).traces.get ⟨n, h₁⟩
      = (tcAdvance^[50] s).traces.getD n 0 := by
    rw [List.getD_eq_getElem _ _ h₁]; rfl
  have e2 : s.traces.get ⟨n, h₂⟩ = s.traces.getD n 0 := by
    rw [List.getD_eq_getElem _ _ h₂]; rfl
  rw [e1, e2, hget n hn]
  have hp : posInRange (s.traces.getD n 0) := getD_forall _ _ _ htr (by decide)
  obtain ⟨h0, h1⟩ := hp
  simp only [NUM_STRIP_LEDS] at h1
  split_ifs <;> push_cast <;> omega

/-- Witness for `c7_trace_positions`: instantiated at the post-`Init`
state (whose traces are `[0, 135, 30, 105, 60, 75, 90, 45]`), on the
startup buffer, strips 2 (even, forward: 30 → 33) and 3 (odd, backward:
105 → 102), and the 50-tick period. -/
theorem c7_trace_positions_witness :
    (tcUpdate tcFreshInit buf0).1.traces.getD 2 0 = 33
    ∧ (tcUpdate tcFreshInit buf0).1.traces.getD 3 0 = 102
    ∧ (tcAdvance^[50] tcFreshInit).traces = tcFreshInit.traces := by
  have h := c7_trace_positions
  have h2 := h.1 tcFreshInit buf0 (by decide) (by decide) 2 (by decide)
  have h3 := h.1 tcFreshInit buf0 (by decide) (by decide) 3 (by decide)
  refine ⟨?_, ?_, h.2.2 tcFreshInit (by decide) (by decide)⟩
  · rw [h2]; decide
  · rw [h3]; decide

/-- C3 (amended) theorem: for TraceChase — the one sequence whose `Init`
re-establishes the whole mutable state — running `Init` then `Update`
after any prior history (any state with `traceColorIndex = 0`, which
holds initially and after every `Update`) produces exactly the same
result, buffer output included, as `Init` then `Update` on a fresh
instance, on the same starting buffer.  The second conjunct shows every
`Update` leaves `traceColorIndex = 0`, so the hypothesis holds after any
history. -/
theorem c3_tracechase_init_roundtrip :
    (∀ (s : TCState) (buf : Buf), s.traceColorIndex = 0 →
        tcUpdate (tcInit s) buf = tcUpdate tcFreshInit buf)
    ∧ ∀ (s : TCState) (buf : Buf), (tcUpdate s buf).1.traceColorIndex = 0 := by
  constructor
  · intro s buf hci
    have h : tcInit s = tcFreshInit := by
      simp only [tcInit, tcFreshInit, hci]
    rw [h]
  · intro s buf
    rfl

/-- Witness for `c3_tracechase_init_roundtrip`: a state with garbage
traces but `traceColorIndex = 0` round-trips through `Init` + `Update`
to the fresh first frame. -/
theorem c3_tracechase_init_roundtrip_witness :
    tcUpdate (tcInit ⟨[77, -3, 500, 0, 1, 2, 3, 4], 0⟩) buf0 = tcUpdate tcFreshInit buf0
    ∧ (tcUpdate ⟨[77, -3, 500, 0, 1, 2, 3, 4], 0⟩ buf0).1.traceColorIndex = 0 := by
  exact ⟨c3_tracechase_init_roundtrip.1 ⟨[77, -3, 500, 0, 1, 2, 3, 4], 0⟩ buf0 rfl,
    c3_tracechase_init_roundtrip.2 ⟨[77, -3, 500, 0, 1, 2, 3, 4], 0⟩ buf0⟩

/-- C4 counterexample: in the very first `Update` after `Init` (fresh
instance, startup buffer), the fourth recorded store — the first store of
strip 1 — paints buffer index 284 (strip 1, position 134) with palette
index 1, not 0: `traceColorIndex` is reset to 0 only after the strip
loop, so within one tick distinct strips are painted with distinct
palette indices. -/
theorem c4_single_color_counterexample :
    (tcUpdate tcFreshInit buf0).2.2.getD 3 ⟨0, 0, 0⟩ = ⟨1, 284, 1⟩
    ∧ ((1 : Int) ≠ 0) := by
  exact ⟨by decide, by decide⟩

/-- C4 (amended) theorem: within each `Update` (from any state with
`traceColorIndex = 0` and defined trace positions), every store of strip
`i` uses palette index `i mod 3` — strip 0 always color 0, but distinct
strips use distinct palette indices within a tick; the end-of-update
reset keeps that per-strip assignment identical on every tick (the state
leaves with `traceColorIndex = 0` again). -/
theorem c4_per_strip_trace_color (s : TCState) (buf : Buf)
    (hci : s.traceColorIndex = 0) (htr : ∀ p ∈ s.traces, posInRange p) :
    (∀ e ∈ (tcUpdate s buf).2.2,
        e.colorIdx = Int.ofNat (e.strip % 3) ∧ e.strip < NUM_STRIPS)
    ∧ (tcUpdate s buf).1.traceColorIndex = 0 := by
  constructor
  · intro e he
    rw [tcUpdate_evs_eq] at he
    obtain ⟨h1, h2, _⟩ := tcPass_evs s buf hci htr NUM_STRIPS e he
    exact ⟨h2, h1⟩
  · rfl

/-- Witness for `c4_per_strip_trace_color`: the first frame after `Init`;
its fourth store (strip 1) carries palette index `1 = 1 mod 3`. -/
theorem c4_per_strip_trace_color_witness :
    ((tcUpdate tcFreshInit buf0).2.2.getD 3 ⟨0, 0, 0⟩).colorIdx
      = Int.ofNat (((tcUpdate tcFreshInit buf0).2.2.getD 3 ⟨0, 0, 0⟩).strip % 3)
    ∧ (tcUpdate tcFreshInit buf0).1.traceColorIndex = 0 := by
  have h := c4_per_strip_trace_color tcFreshInit buf0 (by decide) (by decide)
  exact ⟨(h.1 ((tcUpdate tcFreshInit buf0).2.2.getD 3 ⟨0, 0, 0⟩) (by decide)).1, h.2⟩

/-! ## Channel-range invariants (C2) and write-index bounds (C9) -/

theorem foldl_inv {α β : Type} (P : β → Prop) (f : β → α → β) :
    ∀ (l : List α) (b : β), P b → (∀ (x : β) (a : α), a ∈ l → P x → P (f x a)) →
      P (l.foldl f b) := by
  intro l
  induction l with
  | nil => intro b hb _; exact hb
  | cons a l ih =>
      intro b hb hstep
      exact ih (f b a) (hstep b a (List.mem_cons_self a l) hb)
        (fun x a' ha' hx => hstep x a' (List.mem_cons_of_mem a ha') hx)

/-- The color-index invariant of `S_RingChase`: either the index is a
valid palette index, or it still holds the initial out-of-range value 3
and a pulse (which advances it into range before any read) is due. -/
abbrev rcColorOk (t : RCTimers) : Prop :=
  (0 ≤ t.pulseColorIndex ∧ t.pulseColorIndex < 3)
    ∨ (t.pulseColorIndex = S_RING_CHASE_NUM_PULSE_COLORS ∧ t.pulseTimer ≤ 0)

theorem rcAdvanceColor_range (c : Int) (h0 : 0 ≤ c) (h3 : c ≤ 3) :
    0 ≤ rcAdvanceColor c ∧ rcAdvanceColor c < 3 := by
  simp only [rcAdvanceColor, S_RING_CHASE_NUM_PULSE_COLORS]
  split <;> omega

theorem rcPaletteRead_range {c : Int} (h0 : 0 ≤ c) (h3 : c < 3) :
    inRange (rcPaletteRead c) := by
  have hc : c = 0 ∨ c = 1 ∨ c = 2 := by omega
  rcases hc with h | h | h <;> subst h <;> decide

theorem rcDecay_range {c : CHSVc} (h : inRange c) : inRange (rcDecay c) := by
  obtain ⟨h1, h2, h3, h4, h5, h6⟩ := h
  have hv1 : 0 ≤ fallV c.v := by
    simp only [fallV, S_RING_CHASE_FALLOF_RATE]
    split <;> omega
  have hv2 : fallV c.v ≤ 255 := by
    simp only [fallV, S_RING_CHASE_FALLOF_RATE]
    split <;> omega
  exact ⟨h1, h2, h3, h4, hv1, hv2⟩

theorem rcTick_color (t : RCTimers) (h : rcColorOk t) :
    (∀ e ∈ (rcTick t).2, 0 ≤ e.2 ∧ e.2 < 3) ∧ rcColorOk (rcTick t).1 := by
  by_cases h1 : t.pulseTimer ≤ 0
  · rw [rcTick_pulse t h1]
    have hc : 0 ≤ rcAdvanceColor t.pulseColorIndex ∧ rcAdvanceColor t.pulseColorIndex < 3 := by
      rcases h with ⟨ha, hb⟩ | ⟨ha, _⟩
      · exact rcAdvanceColor_range _ ha (by omega)
      · rw [ha]
        exact rcAdvanceColor_range _ (by decide) (by decide)
    constructor
    · intro e he
      rw [List.mem_singleton] at he
      subst he
      exact hc
    · exact Or.inl hc
  · have hcc : 0 ≤ t.pulseColorIndex ∧ t.pulseColorIndex < 3 := by
      rcases h with hl | ⟨_, hp⟩
      · exact hl
      · exact absurd hp h1
    simp only [rcTick, if_neg h1]
    split_ifs with h2
    · refine ⟨?_, Or.inl hcc⟩
      intro e he
      rw [List.nil_append, List.mem_singleton] at he
      subst he
      exact hcc
    · refine ⟨?_, Or.inl hcc⟩
      intro e he
      rw [List.append_nil] at he
      exact absurd he (List.not_mem_nil e)

theorem rcUpdate_eq (s : RCState) (buf : Buf) :
    rcUpdate s buf
      = (⟨(applyRingEvents s.rings (rcTick s.timers).2).map rcDecay, (rcTick s.timers).1⟩,
         (rcPaint ((applyRingEvents s.rings (rcTick s.timers).2).map rcDecay) buf).1,
         (rcPaint ((applyRingEvents s.rings (rcTick s.timers).2).map rcDecay) buf).2) := rfl

theorem rcUpdate_rings_eq (s : RCState) (buf : Buf) :
    (rcUpdate s buf).1.rings
      = (applyRingEvents s.rings (rcTick s.timers).2).map rcDecay := by
  rw [rcUpdate_eq]

theorem rcUpdate_timers_eq (s : RCState) (buf : Buf) :
    (rcUpdate s buf).1.timers = (rcTick s.timers).1 := by
  rw [rcUpdate_eq]

theorem rcUpdate_buf_eq (s : RCState) (buf : Buf) :
    (rcUpdate s buf).2.1
      = (rcPaint ((applyRingEvents s.rings (rcTick s.timers).2).map rcDecay) buf).1 := by
  rw [rcUpdate_eq]

theorem rcUpdate_paint_evs_eq (s : RCState) (buf : Buf) :
    (rcUpdate s buf).2.2
      = (rcPaint ((applyRingEvents s.rings (rcTick s.timers).2).map rcDecay) buf).2 := by
  rw [rcUpdate_eq]

theorem applyRingEvents_range (rings : List CHSVc) (evs : List (Int × Int))
    (hr : ∀ c ∈ rings, inRange c) (he : ∀ e ∈ evs, 0 ≤ e.2 ∧ e.2 < 3) :
    ∀ c ∈ applyRingEvents rings evs, inRange c := by
  unfold applyRingEvents
  exact foldl_inv (fun r => ∀ c ∈ r, inRange c) _ evs rings hr
    (fun r e hmem hrr =>
      set_forall _ _ _ hrr (rcPaletteRead_range (he e hmem).1 (he e hmem).2))

theorem rcPaint_eq (rings : List CHSVc) (buf : Buf) :
    rcPaint rings buf
      = ((rcPaintAux rings (buf, [])).1, (rcPaintAux rings (buf, [])).2.reverse) := rfl

theorem rcPaint_buf_eq (rings : List CHSVc) (buf : Buf) :
    (rcPaint rings buf).1 = (rcPaintAux rings (buf, [])).1 := by
  rw [rcPaint_eq]

theorem rcPaint_evs_eq (rings : List CHSVc) (buf : Buf) :
    (rcPaint rings buf).2 = (rcPaintAux rings (buf, [])).2.reverse := by
  rw [rcPaint_eq]

theorem rcPaintAux_buf_range (rings : List CHSVc) (acc : Buf × List PaintEv)
    (hr : ∀ c ∈ rings, inRange c) (hb : bufInRange acc.1) :
    bufInRange (rcPaintAux rings acc).1 := by
  unfold rcPaintAux
  refine foldl_inv (fun a : Buf × List PaintEv => bufInRange a.1) _ _ _ hb ?_
  intro a i _ hacc
  refine foldl_inv (fun a2 : Buf × List PaintEv => bufInRange a2.1) _ _ _ hacc ?_
  intro a2 j _ hacc2
  exact set_forall _ _ _ hacc2 (getD_forall _ _ _ hr (by decide))

theorem rcPaint_buf_range (rings : List CHSVc) (buf : Buf)
    (hr : ∀ c ∈ rings, inRange c) (hb : bufInRange buf) :
    bufInRange (rcPaint rings buf).1 := by
  rw [rcPaint_buf_eq]
  exact rcPaintAux_buf_range rings (buf, []) hr hb

theorem rcPaintAux_evs_bound (rings : List CHSVc) (acc : Buf × List PaintEv)
    (ha : ∀ e ∈ acc.2, 0 ≤ e.idx ∧ e.idx < (NUM_STRIPS : Int) * (NUM_STRIP_LEDS : Int)) :
    ∀ e ∈ (rcPaintAux rings acc).2,
      0 ≤ e.idx ∧ e.idx < (NUM_STRIPS : Int) * (NUM_STRIP_LEDS : Int) := by
  unfold rcPaintAux
  refine foldl_inv
    (fun a : Buf × List PaintEv => ∀ e ∈ a.2,
      0 ≤ e.idx ∧ e.idx < (NUM_STRIPS : Int) * (NUM_STRIP_LEDS : Int)) _ _ _ ha ?_
  intro a i hi hacc
  refine foldl_inv
    (fun a2 : Buf × List PaintEv => ∀ e ∈ a2.2,
      0 ≤ e.idx ∧ e.idx < (NUM_STRIPS : Int) * (NUM_STRIP_LEDS : Int)) _ _ _ hacc ?_
  intro a2 j hj hacc2
  intro e he
  rw [List.mem_cons] at he
  rcases he with he | he
  swap
  · exact hacc2 e he
  · subst he
    have hi8 : i < NUM_STRIPS := List.mem_range.mp hi
    have hj150 : j < NUM_STRIP_LEDS := List.mem_range.mp hj
    constructor
    · show 0 ≤ GetStrip (Int.ofNat i) + (Int.ofNat j)
      simp only [GetStrip, NUM_STRIPS, NUM_STRIP_LEDS, Int.ofNat_eq_natCast] at *
      push_cast
      omega
    · show GetStrip (Int.ofNat i) + (Int.ofNat j) < (NUM_STRIPS : Int) * (NUM_STRIP_LEDS : Int)
      simp only [GetStrip, NUM_STRIPS, NUM_STRIP_LEDS, Int.ofNat_eq_natCast] at *
      push_cast
      omega

theorem rcPaint_evs_bound (rings : List CHSVc) (buf : Buf) :
    ∀ e ∈ (rcPaint rings buf).2,
      0 ≤ e.idx ∧ e.idx < (NUM_STRIPS : Int) * (NUM_STRIP_LEDS : Int) := by
  intro e he
  rw [rcPaint_evs_eq, List.mem_reverse] at he
  exact rcPaintAux_evs_bound rings (buf, [])
    (fun e2 he2 => absurd he2 (List.not_mem_nil e2)) e he

/-- The startup buffer is in range. -/
theorem bufInRange_buf0 : bufInRange buf0 := by
  intro c hc
  rw [buf0, List.mem_replicate] at hc
  rw [hc.2]
  decide

theorem rcUpdate_range (s : RCState) (buf : Buf)
    (hr : ∀ c ∈ s.rings, inRange c) (hc : rcColorOk s.timers) (hb : bufInRange buf) :
    (∀ c ∈ (rcUpdate s buf).1.rings, inRange c)
    ∧ bufInRange (rcUpdate s buf).2.1
    ∧ rcColorOk (rcUpdate s buf).1.timers := by
  have hev := (rcTick_color s.timers hc).1
  have hrings1 : ∀ c ∈ applyRingEvents s.rings (rcTick s.timers).2, inRange c :=
    applyRingEvents_range _ _ hr hev
  have hrings2 : ∀ c ∈ (applyRingEvents s.rings (rcTick s.timers).2).map rcDecay, inRange c := by
    intro c hcmem
    obtain ⟨d, hd, rfl⟩ := List.mem_map.mp hcmem
    exact rcDecay_range (hrings1 d hd)
  refine ⟨?_, ?_, ?_⟩
  · rw [rcUpdate_rings_eq]
    exact hrings2
  · rw [rcUpdate_buf_eq]
    exact rcPaint_buf_range _ _ hrings2 hb
  · rw [rcUpdate_timers_eq]
    exact (rcTick_color s.timers hc).2

theorem tcStripPass_buf_raw (acc : TCAcc) (i : Nat) :
    (tcStripPass acc i).buf
      = bufSet (bufSet (bufSet acc.buf
            (GetStrip (Int.ofNat i) + tcDirStep i (acc.traces.getD i 0))
            (S_TRACE_CHASE_COLORS.getD acc.ci.toNat ⟨0, 0, 0⟩))
          (GetStrip (Int.ofNat i) + tcDirStep i ((tcStripTraces i acc.traces).getD i 0))
          (S_TRACE_CHASE_COLORS.getD acc.ci.toNat ⟨0, 0, 0⟩))
        (GetStrip (Int.ofNat i)
          + tcDirStep i ((tcStripTraces i (tcStripTraces i acc.traces)).getD i 0))
        (S_TRACE_CHASE_COLORS.getD acc.ci.toNat ⟨0, 0, 0⟩) := rfl

theorem tcPass_buf_range (s : TCState) (buf : Buf) (hb : bufInRange buf) :
    ∀ n : Nat, bufInRange (tcPass s buf n).buf := by
  have hcol : ∀ k : Nat, inRange (S_TRACE_CHASE_COLORS.getD k ⟨0, 0, 0⟩) :=
    fun k => getD_forall _ _ _ (by decide) (by decide)
  intro n
  induction n with
  | zero => exact hb
  | succ n ih =>
      rw [tcPass_succ, tcStripPass_buf_raw]
      exact set_forall _ _ _ (set_forall _ _ _ (set_forall _ _ _ ih (hcol _)) (hcol _)) (hcol _)

theorem twUpdate_range (s : TWState) (buf : Buf) (x y z : Nat) (hb : bufInRange buf) :
    bufInRange (twUpdate s buf x y z).2.1 := by
  have hcol : inRange (twColor z) := getD_forall _ _ _ (by decide) (by decide)
  obtain ⟨hb1, hb2⟩ := twBrightness_bound y
  have hwr : inRange (twWrite y z) := by
    refine ⟨hcol.1, hcol.2.1, hcol.2.2.1, hcol.2.2.2.1, ?_, ?_⟩
    · show 0 ≤ twBrightness y
      omega
    · show twBrightness y ≤ 255
      omega
  have hbuf1 : bufInRange
      (if s.twinkleTimer ≤ 0 then bufSet buf (twPos x) (twWrite y z) else buf) := by
    split_ifs
    · exact set_forall _ _ _ hb hwr
    · exact hb
  intro c hcmem
  rw [twUpdate_buf_eq] at hcmem
  obtain ⟨d, hd, rfl⟩ := List.mem_map.mp hcmem
  exact nscale8_inRange (hbuf1 d hd) (by decide) (by decide)

theorem tcUpdate_range (s : TCState) (buf : Buf) (hb : bufInRange buf) :
    bufInRange (tcUpdate s buf).2.1 := by
  intro c hcmem
  rw [tcUpdate_buf_eq] at hcmem
  obtain ⟨d, hd, rfl⟩ := List.mem_map.mp hcmem
  exact nscale8_inRange (tcPass_buf_range s buf hb NUM_STRIPS d hd) (by decide) (by decide)

/-- C2: every channel value written to the Color Buffer stays within
`[0, 255]`: (a) RingChase's linear falloff clamps at 0, never exceeds 255
and never increases a value; (b) `nscale8`'s per-channel scaling never
goes negative and never increases a channel (`scale ≤ 255`); (c) one
RingChase `Update` from any state satisfying the ring/color invariants
keeps every ring and every buffer channel in range (and preserves the
color invariant, which the initial state satisfies); (d) one Twinkle
`Update` — for every entropy the random source can return — and (e) one
TraceChase `Update` keep every buffer channel in range. -/
theorem c2_channel_bounds :
    (∀ v : Int, 0 ≤ v → v ≤ 255 → 0 ≤ fallV v ∧ fallV v ≤ 255 ∧ fallV v ≤ v)
    ∧ (∀ i scale : Int, 0 ≤ i → 0 ≤ scale → scale ≤ 255 →
        0 ≤ scale8 i scale ∧ scale8 i scale ≤ i)
    ∧ (∀ (s : RCState) (buf : Buf), (∀ c ∈ s.rings, inRange c) → rcColorOk s.timers →
        bufInRange buf →
        (∀ c ∈ (rcUpdate s buf).1.rings, inRange c)
          ∧ bufInRange (rcUpdate s buf).2.1
          ∧ rcColorOk (rcUpdate s buf).1.timers)
    ∧ (∀ (s : TWState) (buf : Buf) (x y z : Nat), bufInRange buf →
        bufInRange (twUpdate s buf x y z).2.1)
    ∧ (∀ (s : TCState) (buf : Buf), bufInRange buf → bufInRange (tcUpdate s buf).2.1) := by
  refine ⟨?_, ?_, rcUpdate_range, twUpdate_range, tcUpdate_range⟩
  · intro v h0 h255
    simp only [fallV, S_RING_CHASE_FALLOF_RATE]
    split <;> omega
  · intro i scale hi hs0 hs255
    exact ⟨scale8_nonneg hi hs0, scale8_le hi hs255⟩

/-- Witness for `c2_channel_bounds`: the falloff and scaling bounds at
value 200 with scale 245, and buffer entry 0 after one `Update` of each
sequence from the startup state (all-zero buffer, constructor state for
RingChase with the out-of-bounds read modelled as zero). -/
theorem c2_channel_bounds_witness :
    (0 ≤ fallV 200 ∧ fallV 200 ≤ 255 ∧ fallV 200 ≤ 200)
    ∧ (0 ≤ scale8 200 245 ∧ scale8 200 245 ≤ 200)
    ∧ inRange ((rcUpdate (rcConstructed ⟨0, 0, 0⟩) buf0).2.1.getD 0 ⟨0, 0, 0⟩)
    ∧ inRange ((twUpdate ⟨0⟩ buf0 0 0 0).2.1.getD 0 ⟨0, 0, 0⟩)
    ∧ inRange ((tcUpdate tcFreshInit buf0).2.1.getD 0 ⟨0, 0, 0⟩) := by
  have h := c2_channel_bounds
  refine ⟨h.1 200 (by norm_num) (by norm_num), h.2.1 200 245 (by norm_num) (by norm_num)
    (by norm_num), ?_, ?_, ?_⟩
  · exact getD_forall _ _ _
      (h.2.2.1 (rcConstructed ⟨0, 0, 0⟩) buf0 (by decide) (by decide) bufInRange_buf0).2.1
      (by decide)
  · exact getD_forall _ _ _ (h.2.2.2.1 ⟨0⟩ buf0 0 0 0 bufInRange_buf0) (by decide)
  · exact getD_forall _ _ _ (h.2.2.2.2 tcFreshInit buf0 bufInRange_buf0) (by decide)

/-- C8: `WrapUp` of every sequence leaves every Color Buffer entry
unchanged, mutating only private sequence state (RingChase sets
`pulseTimer = 9999`; Twinkle and TraceChase have empty bodies). -/
theorem c8_wrapup_frame (rs : RCState) (ts : TWState) (cs : TCState) (buf : Buf) :
    (rcWrapUp rs buf).2 = buf ∧ (twWrapUp ts buf).2 = buf ∧ (tcWrapUp cs buf).2 = buf
    ∧ (rcWrapUp rs buf).1 = ⟨rs.rings, { rs.timers with pulseTimer := 9999 }⟩
    ∧ (twWrapUp ts buf).1 = ts ∧ (tcWrapUp cs buf).1 = cs :=
  ⟨rfl, rfl, rfl, rfl, rfl, rfl⟩

/-- C9: every index stored to by an `Update` lies in
`[0, NUM_STRIPS * NUM_STRIP_LEDS) = [0, 1200)`: (a) RingChase's paint
loop by construction (`GetStrip i + j` with `i < 8`, `j < 150`), for any
state; (b) Twinkle's random position for every entropy value; (c)
TraceChase from any state with in-range trace positions — each store hits
`GetStrip strip + p` with `0 ≤ p < NUM_STRIP_LEDS`, and the positions are
again in range afterwards; (d) `Init` establishes the position invariant
(and the expected length), closing the induction over ticks. -/
theorem c9_write_indices_in_range :
    (∀ (s : RCState) (buf : Buf), ∀ e ∈ (rcUpdate s buf).2.2,
        0 ≤ e.idx ∧ e.idx < (NUM_STRIPS : Int) * (NUM_STRIP_LEDS : Int))
    ∧ (∀ (s : TWState) (buf : Buf) (x y z : Nat), ∀ e ∈ (twUpdate s buf x y z).2.2,
        0 ≤ e.idx ∧ e.idx < (NUM_STRIPS : Int) * (NUM_STRIP_LEDS : Int))
    ∧ (∀ (s : TCState) (buf : Buf), s.traceColorIndex = 0 →
        (∀ p ∈ s.traces, posInRange p) →
        (∀ e ∈ (tcUpdate s buf).2.2,
            (0 ≤ e.idx ∧ e.idx < (NUM_STRIPS : Int) * (NUM_STRIP_LEDS : Int))
              ∧ ∃ p : Int, posInRange p ∧ e.idx = GetStrip (Int.ofNat e.strip) + p)
          ∧ ∀ p ∈ (tcUpdate s buf).1.traces, posInRange p)
    ∧ (∀ s : TCState, (∀ p ∈ (tcInit s).traces, posInRange p)
        ∧ (tcInit s).traces.length = NUM_STRIPS) := by
  refine ⟨?_, ?_, ?_, ?_⟩
  · intro s buf e he
    rw [rcUpdate_paint_evs_eq] at he
    exact rcPaint_evs_bound _ _ e he
  · intro s buf x y z e he
    rw [twUpdate_evs_eq] at he
    split_ifs at he
    · rw [List.mem_singleton] at he
      subst he
      obtain ⟨hp1, hp2⟩ := twPos_bound x
      have hmul : (NUM_STRIPS : Int) * (NUM_STRIP_LEDS : Int) = 1200 := rfl
      exact ⟨by show 0 ≤ twPos x; omega, by show twPos x < _; omega⟩
    · exact absurd he (List.not_mem_nil e)
  · intro s buf hci htr
    constructor
    · intro e he
      rw [tcUpdate_evs_eq] at he
      obtain ⟨hlt, _, p, hp, hidx⟩ := tcPass_evs s buf hci htr NUM_STRIPS e he
      refine ⟨?_, p, hp, hidx⟩
      rw [hidx]
      obtain ⟨hp0, hp1⟩ := hp
      simp only [GetStrip, NUM_STRIP_LEDS, NUM_STRIPS, Int.ofNat_eq_natCast] at *
      constructor
      · push_cast
        omega
      · push_cast at *
        omega
    · rw [tcUpdate_traces_eq]
      exact tcPass_traces_range s buf htr NUM_STRIPS
  · intro s
    have htr : (tcInit s).traces = tcFreshInit.traces := rfl
    rw [htr]
    exact ⟨by decide, by decide⟩

/-- Witness for `c9_write_indices_in_range`: first stores of each
sequence's first `Update` from the startup state, and `Init`'s invariant
on an arbitrary concrete state. -/
theorem c9_write_indices_in_range_witness :
    (0 ≤ ((rcUpdate (rcConstructed ⟨0, 0, 0⟩) buf0).2.2.getD 0 ⟨0, ⟨0, 0, 0⟩⟩).idx
      ∧ ((rcUpdate (rcConstructed ⟨0, 0, 0⟩) buf0).2.2.getD 0 ⟨0, ⟨0, 0, 0⟩⟩).idx
          < (NUM_STRIPS : Int) * (NUM_STRIP_LEDS : Int))
    ∧ (0 ≤ ((twUpdate ⟨0⟩ buf0 0 0 0).2.2.getD 0 ⟨0, ⟨0, 0, 0⟩⟩).idx
      ∧ ((twUpdate ⟨0⟩ buf0 0 0 0).2.2.getD 0 ⟨0, ⟨0, 0, 0⟩⟩).idx
          < (NUM_STRIPS : Int) * (NUM_STRIP_LEDS : Int))
    ∧ (0 ≤ ((tcUpdate tcFreshInit buf0).2.2.getD 0 ⟨0, 0, 0⟩).idx
      ∧ ((tcUpdate tcFreshInit buf0).2.2.getD 0 ⟨0, 0, 0⟩).idx
          < (NUM_STRIPS : Int) * (NUM_STRIP_LEDS : Int))
    ∧ (∀ p ∈ (tcInit ⟨[], 5⟩).traces, posInRange p) := by
  have h := c9_write_indices_in_range
  refine ⟨?_, ?_, ?_, (h.2.2.2 ⟨[], 5⟩).1⟩
  · exact h.1 (rcConstructed ⟨0, 0, 0⟩) buf0 _ (by decide)
  · exact h.2.1 ⟨0⟩ buf0 0 0 0 _ (by decide)
  · exact ((h.2.2.1 tcFreshInit buf0 (by decide) (by decide)).1 _ (by decide)).1

end LEDTunnel
